import Mathlib

/-!
Verification of the two one-shot inference adapter scripts of this
repository: `src/nlq/mlx-inference.py` (Apple-Silicon adapter) and
`src/nlq/llama-inference.py` (CPU/CUDA adapter).

Strings are modelled as `List Char`, Python exceptions as `Except` with
the exception message as the error value, and the two opaque inference
libraries as oracles supplied to the embedded `main` bodies.  Each body
additionally records the list of library calls it makes, so that the
arguments passed to `load` and `generate` can be stated.
-/

namespace Levin

/-- Python ASCII whitespace, as removed by `str.strip()`. -/
def pyIsSpace (c : Char) : Bool :=
  c == ' ' || c == '\t' || c == '\n' || c == '\r' ||
    c == Char.ofNat 11 || c == Char.ofNat 12

/-- Python `str.strip()`: drop leading and trailing whitespace. -/
def pyStrip (s : List Char) : List Char :=
  ((s.dropWhile pyIsSpace).reverse.dropWhile pyIsSpace).reverse

/-- Python `text.find(stop)`: the index of the first occurrence of `stop`
in `text`, `none` where Python returns `-1`. -/
def strFind (text stop : List Char) : Option Nat :=
  if stop.isPrefixOf text then some 0
  else
    match text with
    | [] => none
    | _ :: t => (strFind t stop).map (· + 1)

/-- One iteration of the stop-sequence loop of `mlx-inference.py`
lines 43-46: find the first occurrence of `stop` in `text` and, if
found, truncate the text to end just before it. -/
def trimOne (text stop : List Char) : List Char :=
  match strFind text stop with
  | some i => text.take i
  | none => text

/-- The five stop sequences of `mlx-inference.py` line 43, in order. -/
def mlxStops : List (List Char) :=
  [String.toList "<|user|>", String.toList "<|end|>",
   String.toList "<|endoftext|>", String.toList "<|im_end|>",
   String.toList "\n\n"]

/-- The post-processing of `mlx-inference.py` lines 40-48: strip the raw
response, run the sequential stop-sequence trim, strip the result. -/
def mlxTrim (response : List Char) : List Char :=
  pyStrip (List.foldl trimOne (pyStrip response) mlxStops)

/-- Parsed JSON values, the result of `json.loads`. -/
inductive JValue where
  | null : JValue
  | bool : Bool → JValue
  | num : Int → JValue
  | str : List Char → JValue
  | arr : List JValue → JValue
  | obj : List (List Char × JValue) → JValue

/-- First-match key lookup in a parsed JSON object. -/
def lookupKV (kvs : List (List Char × JValue)) (key : List Char) :
    Option JValue :=
  match kvs with
  | [] => none
  | kv :: rest => if kv.1 = key then some kv.2 else lookupKV rest key

def keyError (k : List Char) : List Char :=
  String.toList "KeyError: " ++ k

def typeError : List Char :=
  String.toList "TypeError: value does not support this subscript"

def attribError : List Char :=
  String.toList "AttributeError: value does not have this attribute"

/-- Python `d[key]` on a parsed JSON value: dict lookup, `KeyError` when
the key is missing, `TypeError` on a non-dict. -/
def jGet (v : JValue) (key : List Char) : Except (List Char) JValue :=
  match v with
  | JValue.obj kvs =>
    match lookupKV kvs key with
    | some w => Except.ok w
    | none => Except.error (keyError key)
  | _ => Except.error typeError

/-- Python `d.get(key, default)`: never raises on a dict and returns the
stored value even when it is `null`; on a non-dict the attribute lookup
itself fails. -/
def jGetD (v : JValue) (key : List Char) (dflt : JValue) :
    Except (List Char) JValue :=
  match v with
  | JValue.obj kvs => Except.ok ((lookupKV kvs key).getD dflt)
  | _ => Except.error attribError

/-- The single JSON object each script prints, `mlx-inference.py`
lines 48 and 51 and `llama-inference.py` lines 41 and 44. -/
inductive Response where
  | success : List Char → Response
  | failure : List Char → Response

def modelPathKey : List Char := String.toList "modelPath"

def promptKey : List Char := String.toList "prompt"

def maxTokensKey : List Char := String.toList "maxTokens"

/-- The constant `BASE_MODEL` of `mlx-inference.py` line 14. -/
def baseModel : List Char :=
  String.toList "mlx-community/Qwen2.5-7B-Instruct-4bit"

/-- A library call made by the Apple-Silicon adapter: `load` with the
model identifier and the `adapter_path` keyword, or `generate` with the
prompt, the max-token cap and the `verbose` flag. -/
inductive MlxCall where
  | load : List Char → JValue → MlxCall
  | generate : JValue → JValue → Bool → MlxCall

/-- The `mlx_lm` library as an oracle: results of `load` and `generate`
for given arguments, either a value or a raised exception. -/
structure MlxLib where
  load : List Char → JValue → Except (List Char) Unit
  generate : JValue → JValue → Bool → Except (List Char) (List Char)

/-- The `try` body of `main` in `mlx-inference.py` (lines 17-48), over
the stdin-parse outcome and the library oracle; returns the success text
or the raised exception message, with the trace of library calls. -/
def mlxBody (lib : MlxLib) (stdin : Except (List Char) JValue) :
    Except (List Char) (List Char) × List MlxCall :=
  match stdin with
  | Except.error e => (Except.error e, [])
  | Except.ok input =>
    match jGet input modelPathKey with
    | Except.error e => (Except.error e, [])
    | Except.ok adapterPath =>
      match jGet input promptKey with
      | Except.error e => (Except.error e, [])
      | Except.ok prompt =>
        match jGetD input maxTokensKey (JValue.num 100) with
        | Except.error e => (Except.error e, [])
        | Except.ok maxTokens =>
          match lib.load baseModel adapterPath with
          | Except.error e =>
            (Except.error e, [MlxCall.load baseModel adapterPath])
          | Except.ok _ =>
            match lib.generate prompt maxTokens false with
            | Except.error e =>
              (Except.error e,
               [MlxCall.load baseModel adapterPath,
                MlxCall.generate prompt maxTokens false])
            | Except.ok response =>
              (Except.ok (mlxTrim response),
               [MlxCall.load baseModel adapterPath,
                MlxCall.generate prompt maxTokens false])

/-- The whole `main` of `mlx-inference.py`: the one printed JSON object
and the process exit code. -/
def mlxRun (lib : MlxLib) (stdin : Except (List Char) JValue) :
    Response × Nat :=
  match (mlxBody lib stdin).1 with
  | Except.ok text => (Response.success text, 0)
  | Except.error e => (Response.failure e, 1)

/-- The four stop sequences of `llama-inference.py` line 36, in order. -/
def llamaStops : List (List Char) :=
  [String.toList "<|user|>", String.toList "<|end|>",
   String.toList "<|endoftext|>", String.toList "\n\n"]

/-- A library call made by the CPU/CUDA adapter: `Llama(...)`
construction with `model_path`, `n_ctx`, `n_gpu_layers`, `verbose`, or
the `llm(...)` generation call with prompt, `max_tokens`, `stop` and
`echo`. -/
inductive LlamaCall where
  | load : JValue → Int → Int → Bool → LlamaCall
  | generate : JValue → JValue → List (List Char) → Bool → LlamaCall

/-- The `llama_cpp` library as an oracle.  `generate` yields the raw
completion object that the script then indexes into. -/
structure LlamaLib where
  load : JValue → Int → Int → Bool → Except (List Char) Unit
  generate : JValue → JValue → List (List Char) → Bool →
    Except (List Char) JValue

/-- Python `xs[0]` on a parsed JSON value: list indexing, `IndexError`
on an empty list, a type error on the remaining shapes (on each of which
the chained text-key access would raise in Python as well). -/
def jIndexZero (v : JValue) : Except (List Char) JValue :=
  match v with
  | JValue.arr xs =>
    match xs with
    | [] => Except.error (String.toList "IndexError: list index out of range")
    | x :: _ => Except.ok x
  | _ => Except.error typeError

/-- Python `.strip()` on the extracted value: succeeds on a string,
`AttributeError` otherwise. -/
def jStrip (v : JValue) : Except (List Char) (List Char) :=
  match v with
  | JValue.str s => Except.ok (pyStrip s)
  | _ => Except.error attribError

def choicesKey : List Char := String.toList "choices"

def textKey : List Char := String.toList "text"

/-- The extraction of the text field of the first choice of the
generation output, `llama-inference.py` line 40. -/
def llamaExtract (output : JValue) : Except (List Char) JValue :=
  match jGet output choicesKey with
  | Except.error e => Except.error e
  | Except.ok choices =>
    match jIndexZero choices with
    | Except.error e => Except.error e
    | Except.ok first => jGet first textKey

/-- The `try` body of `main` in `llama-inference.py` (lines 14-41), over
the stdin-parse outcome and the library oracle, with the trace of
library calls. -/
def llamaBody (lib : LlamaLib) (stdin : Except (List Char) JValue) :
    Except (List Char) (List Char) × List LlamaCall :=
  match stdin with
  | Except.error e => (Except.error e, [])
  | Except.ok input =>
    match jGet input modelPathKey with
    | Except.error e => (Except.error e, [])
    | Except.ok modelPath =>
      match jGet input promptKey with
      | Except.error e => (Except.error e, [])
      | Except.ok prompt =>
        match jGetD input maxTokensKey (JValue.num 100) with
        | Except.error e => (Except.error e, [])
        | Except.ok maxTokens =>
          match lib.load modelPath 2048 (-1) false with
          | Except.error e =>
            (Except.error e, [LlamaCall.load modelPath 2048 (-1) false])
          | Except.ok _ =>
            match lib.generate prompt maxTokens llamaStops false with
            | Except.error e =>
              (Except.error e,
               [LlamaCall.load modelPath 2048 (-1) false,
                LlamaCall.generate prompt maxTokens llamaStops false])
            | Except.ok output =>
              match llamaExtract output with
              | Except.error e =>
                (Except.error e,
                 [LlamaCall.load modelPath 2048 (-1) false,
                  LlamaCall.generate prompt maxTokens llamaStops false])
              | Except.ok textVal =>
                match jStrip textVal with
                | Except.error e =>
                  (Except.error e,
                   [LlamaCall.load modelPath 2048 (-1) false,
                    LlamaCall.generate prompt maxTokens llamaStops false])
                | Except.ok text =>
                  (Except.ok text,
                   [LlamaCall.load modelPath 2048 (-1) false,
                    LlamaCall.generate prompt maxTokens llamaStops false])

/-- The whole `main` of `llama-inference.py`: the one printed JSON
object and the process exit code. -/
def llamaRun (lib : LlamaLib) (stdin : Except (List Char) JValue) :
    Response × Nat :=
  match (llamaBody lib stdin).1 with
  | Except.ok text => (Response.success text, 0)
  | Except.error e => (Response.failure e, 1)

/-- The Apple-Silicon trimming exactly as claim C1 words it: the
sentinel scan runs on the raw generated text and only the final text is
stripped (no initial strip).  Stated for refinement comparison with
`mlxTrim`, which is translated from the source. -/
def claimOrderTrim (response : List Char) : List Char :=
  pyStrip (List.foldl trimOne response mlxStops)

/-! ## Helper lemmas about find, trim and strip -/

theorem take_isPre (n : Nat) (l : List Char) : l.take n <+: l :=
  List.take_prefix n l

theorem isPrefixOf_eq_true_iff {l₁ l₂ : List Char} :
    l₁.isPrefixOf l₂ = true ↔ l₁ <+: l₂ :=
  List.isPrefixOf_iff_prefix

theorem isPre_isInf {l₁ l₂ : List Char} (h : l₁ <+: l₂) : l₁ <:+: l₂ :=
  List.IsPrefix.isInfix h

theorem isSuf_isInf {l₁ l₂ : List Char} (h : l₁ <:+ l₂) : l₁ <:+: l₂ :=
  List.IsSuffix.isInfix h

theorem strFind_none_no_pre (stop : List Char) :
    ∀ text : List Char, strFind text stop = none →
      ∀ j : Nat, ¬ stop <+: text.drop j := by
  intro text
  induction text with
  | nil =>
    intro h j hpre
    rw [List.drop_nil] at hpre
    rw [List.prefix_nil] at hpre
    subst hpre
    rw [strFind] at h
    simp [List.isPrefixOf] at h
  | cons c t ih =>
    intro h j hpre
    rw [strFind] at h
    by_cases hp : stop.isPrefixOf (c :: t)
    · rw [if_pos hp] at h
      exact Option.noConfusion h
    · rw [if_neg hp] at h
      cases j with
      | zero =>
        rw [List.drop_zero] at hpre
        exact hp (isPrefixOf_eq_true_iff.mpr hpre)
      | succ j =>
        have ht : strFind t stop = none := by
          cases hf : strFind t stop with
          | none => rfl
          | some i => rw [hf] at h; exact Option.noConfusion h
        exact ih ht j (by simpa using hpre)

theorem strFind_some_min (stop : List Char) :
    ∀ (text : List Char) (i : Nat), strFind text stop = some i →
      ∀ j : Nat, j < i → ¬ stop <+: text.drop j := by
  intro text
  induction text with
  | nil =>
    intro i h j hj hpre
    rw [strFind] at h
    by_cases hp : stop.isPrefixOf []
    · rw [if_pos hp] at h
      cases h
      exact Nat.not_lt_zero j hj
    · rw [if_neg hp] at h
      exact Option.noConfusion h
  | cons c t ih =>
    intro i h j hj hpre
    rw [strFind] at h
    by_cases hp : stop.isPrefixOf (c :: t)
    · rw [if_pos hp] at h
      cases h
      exact Nat.not_lt_zero j hj
    · rw [if_neg hp] at h
      rcases Option.map_eq_some'.mp h with ⟨i', hi', hadd⟩
      cases j with
      | zero =>
        rw [List.drop_zero] at hpre
        exact hp (isPrefixOf_eq_true_iff.mpr hpre)
      | succ j =>
        have hji : j < i' := by omega
        exact ih i' hi' j hji (by simpa using hpre)

theorem pre_drop_isInf {stop text : List Char} {j : Nat}
    (h : stop <+: text.drop j) : stop <:+: text :=
  (isPre_isInf h).trans (isSuf_isInf (List.drop_suffix j text))

theorem isInf_exists_drop {stop text : List Char} (h : stop <:+: text) :
    ∃ j : Nat, stop <+: text.drop j := by
  obtain ⟨s, t, hst⟩ := h
  refine ⟨s.length, ?_⟩
  rw [← hst, List.append_assoc, List.drop_left]
  exact ⟨t, rfl⟩

theorem strFind_none_not_inf {stop text : List Char}
    (h : strFind text stop = none) : ¬ stop <:+: text := by
  intro hinf
  obtain ⟨j, hj⟩ := isInf_exists_drop hinf
  exact strFind_none_no_pre stop text h j hj

theorem trimOne_eq_of_none {text stop : List Char}
    (h : strFind text stop = none) : trimOne text stop = text := by
  simp [trimOne, h]

theorem trimOne_eq_of_some {text stop : List Char} {i : Nat}
    (h : strFind text stop = some i) : trimOne text stop = text.take i := by
  simp [trimOne, h]

theorem trimOne_not_inf {stop : List Char} (hne : stop ≠ [])
    (text : List Char) : ¬ stop <:+: trimOne text stop := by
  cases hf : strFind text stop with
  | none =>
    rw [trimOne_eq_of_none hf]
    exact strFind_none_not_inf hf
  | some i =>
    rw [trimOne_eq_of_some hf]
    intro hinf
    obtain ⟨j, hj⟩ := isInf_exists_drop hinf
    have hlen : j < (text.take i).length := by
      by_contra hle
      push_neg at hle
      rw [List.drop_eq_nil_of_le hle] at hj
      rw [List.prefix_nil] at hj
      exact hne hj
    have hji : j < i := by
      have hle2 := List.length_take_le i text
      omega
    have hstep : (text.take i).drop j <+: text.drop j := by
      have heq : (text.take i).drop j = (text.drop j).take (i - j) := by
        rw [List.take_drop, Nat.add_sub_cancel' (Nat.le_of_lt hji)]
      rw [heq]
      exact take_isPre _ _
    exact strFind_some_min stop text i hf j hji (hj.trans hstep)

theorem trimOne_isPre (text stop : List Char) : trimOne text stop <+: text := by
  cases hf : strFind text stop with
  | none =>
    rw [trimOne_eq_of_none hf]
  | some i =>
    rw [trimOne_eq_of_some hf]
    exact take_isPre i text

theorem foldTrim_isPre (stops : List (List Char)) :
    ∀ text : List Char, List.foldl trimOne text stops <+: text := by
  induction stops with
  | nil =>
    intro text
    exact List.prefix_rfl
  | cons s rest ih =>
    intro text
    rw [List.foldl_cons]
    exact (ih (trimOne text s)).trans (trimOne_isPre text s)

theorem foldTrim_not_inf (stops : List (List Char)) :
    ∀ text stop : List Char, stop ∈ stops → stop ≠ [] →
      ¬ stop <:+: List.foldl trimOne text stops := by
  induction stops with
  | nil =>
    intro text stop hmem
    exact absurd hmem (List.not_mem_nil stop)
  | cons s rest ih =>
    intro text stop hmem hne hinf
    rw [List.foldl_cons] at hinf
    rcases List.mem_cons.mp hmem with heq | hmem'
    · subst heq
      exact trimOne_not_inf hne text
        (hinf.trans (isPre_isInf (foldTrim_isPre rest (trimOne text stop))))
    · exact ih (trimOne text s) stop hmem' hne hinf

theorem dropWhile_isSuf (p : Char → Bool) (l : List Char) :
    l.dropWhile p <:+ l :=
  List.dropWhile_suffix p

theorem pyStrip_isInf (s : List Char) : pyStrip s <:+: s := by
  have h1 : s.dropWhile pyIsSpace <:+ s := dropWhile_isSuf pyIsSpace s
  have h2 : ((s.dropWhile pyIsSpace).reverse.dropWhile pyIsSpace).reverse <+:
      s.dropWhile pyIsSpace := by
    conv_rhs => rw [← List.reverse_reverse (s.dropWhile pyIsSpace)]
    exact List.reverse_prefix.mpr (dropWhile_isSuf pyIsSpace _)
  exact (isPre_isInf h2).trans (isSuf_isInf h1)

/-! ## Claim C8 -/

/-- C8: for every raw generated text, the Apple-Silicon success result
contains no occurrence of any of the five stop sequences at any
position, and is a contiguous substring of the raw text. -/
theorem mlx_result_no_stop_and_substring (raw : List Char) :
    (∀ stop ∈ mlxStops, ¬ stop <:+: mlxTrim raw) ∧ mlxTrim raw <:+: raw := by
  have hout : mlxTrim raw <:+: List.foldl trimOne (pyStrip raw) mlxStops :=
    pyStrip_isInf _
  constructor
  · intro stop hmem hinf
    have hne : stop ≠ [] := by
      simp only [mlxStops, List.mem_cons, List.not_mem_nil, or_false] at hmem
      rcases hmem with rfl | rfl | rfl | rfl | rfl <;> decide
    exact foldTrim_not_inf mlxStops (pyStrip raw) stop hmem hne
      (hinf.trans hout)
  · have h2 : List.foldl trimOne (pyStrip raw) mlxStops <+: pyStrip raw :=
      foldTrim_isPre mlxStops (pyStrip raw)
    exact (hout.trans (isPre_isInf h2)).trans (pyStrip_isInf raw)

/-- Witness for C8 at a concrete raw text and stop sequence. -/
theorem mlx_result_no_stop_and_substring_witness :
    (¬ String.toList "\n\n" <:+: mlxTrim (String.toList "a\n\nb")) ∧
      mlxTrim (String.toList "a\n\nb") <:+: String.toList "a\n\nb" :=
  ⟨(mlx_result_no_stop_and_substring (String.toList "a\n\nb")).1
      (String.toList "\n\n") (by decide),
   (mlx_result_no_stop_and_substring (String.toList "a\n\nb")).2⟩

/-! ## Trace characterizations of the two bodies -/

theorem mlxBody_trace_cases (lib : MlxLib) (input : JValue) :
    (mlxBody lib (Except.ok input)).2 = [] ∨
    (∃ ap, jGet input modelPathKey = Except.ok ap ∧
      (mlxBody lib (Except.ok input)).2 = [MlxCall.load baseModel ap]) ∨
    (∃ ap p m, jGet input modelPathKey = Except.ok ap ∧
      jGet input promptKey = Except.ok p ∧
      jGetD input maxTokensKey (JValue.num 100) = Except.ok m ∧
      (mlxBody lib (Except.ok input)).2 =
        [MlxCall.load baseModel ap, MlxCall.generate p m false]) := by
  cases hm : jGet input modelPathKey with
  | error e => exact Or.inl (by simp [mlxBody, hm])
  | ok ap =>
    cases hp : jGet input promptKey with
    | error e => exact Or.inl (by simp [mlxBody, hm, hp])
    | ok p =>
      cases hd : jGetD input maxTokensKey (JValue.num 100) with
      | error e => exact Or.inl (by simp [mlxBody, hm, hp, hd])
      | ok m =>
        cases hl : lib.load baseModel ap with
        | error e =>
          exact Or.inr (Or.inl ⟨ap, rfl, by simp [mlxBody, hm, hp, hd, hl]⟩)
        | ok u =>
          cases hg : lib.generate p m false with
          | error e =>
            exact Or.inr (Or.inr ⟨ap, p, m, rfl, rfl, rfl,
              by simp [mlxBody, hm, hp, hd, hl, hg]⟩)
          | ok r =>
            exact Or.inr (Or.inr ⟨ap, p, m, rfl, rfl, rfl,
              by simp [mlxBody, hm, hp, hd, hl, hg]⟩)

theorem llamaBody_trace_cases (lib : LlamaLib) (input : JValue) :
    (llamaBody lib (Except.ok input)).2 = [] ∨
    (∃ mp, jGet input modelPathKey = Except.ok mp ∧
      (llamaBody lib (Except.ok input)).2 =
        [LlamaCall.load mp 2048 (-1) false]) ∨
    (∃ mp p m, jGet input modelPathKey = Except.ok mp ∧
      jGet input promptKey = Except.ok p ∧
      jGetD input maxTokensKey (JValue.num 100) = Except.ok m ∧
      (llamaBody lib (Except.ok input)).2 =
        [LlamaCall.load mp 2048 (-1) false,
         LlamaCall.generate p m llamaStops false]) := by
  cases hm : jGet input modelPathKey with
  | error e => exact Or.inl (by simp [llamaBody, hm])
  | ok mp =>
    cases hp : jGet input promptKey with
    | error e => exact Or.inl (by simp [llamaBody, hm, hp])
    | ok p =>
      cases hd : jGetD input maxTokensKey (JValue.num 100) with
      | error e => exact Or.inl (by simp [llamaBody, hm, hp, hd])
      | ok m =>
        cases hl : lib.load mp 2048 (-1) false with
        | error e =>
          exact Or.inr (Or.inl ⟨mp, rfl, by simp [llamaBody, hm, hp, hd, hl]⟩)
        | ok u =>
          cases hg : lib.generate p m llamaStops false with
          | error e =>
            exact Or.inr (Or.inr ⟨mp, p, m, rfl, rfl, rfl,
              by simp [llamaBody, hm, hp, hd, hl, hg]⟩)
          | ok out =>
            cases hx : llamaExtract out with
            | error e =>
              exact Or.inr (Or.inr ⟨mp, p, m, rfl, rfl, rfl,
                by simp [llamaBody, hm, hp, hd, hl, hg, hx]⟩)
            | ok tv =>
              cases hs : jStrip tv with
              | error e =>
                exact Or.inr (Or.inr ⟨mp, p, m, rfl, rfl, rfl,
                  by simp [llamaBody, hm, hp, hd, hl, hg, hx, hs]⟩)
              | ok txt =>
                exact Or.inr (Or.inr ⟨mp, p, m, rfl, rfl, rfl,
                  by simp [llamaBody, hm, hp, hd, hl, hg, hx, hs]⟩)

/-! ## Concrete fixtures used by the witnesses -/

def cKvs : List (List Char × JValue) :=
  [(modelPathKey, JValue.str (String.toList "model.gguf")),
   (promptKey, JValue.str (String.toList "hi"))]

def cInput : JValue := JValue.obj cKvs

def cKvsNull : List (List Char × JValue) :=
  [(modelPathKey, JValue.str (String.toList "model.gguf")),
   (promptKey, JValue.str (String.toList "hi")),
   (maxTokensKey, JValue.null)]

def cMlxLib : MlxLib :=
  ⟨fun _ _ => Except.ok (),
   fun _ _ _ => Except.ok (String.toList " out<|end|>x ")⟩

def cOut : JValue :=
  JValue.obj [(choicesKey,
    JValue.arr [JValue.obj [(textKey, JValue.str (String.toList "  hi  "))]])]

def cLlamaLib : LlamaLib :=
  ⟨fun _ _ _ _ => Except.ok (), fun _ _ _ _ => Except.ok cOut⟩

/-! ## Claim C1 -/

/-- C1 counterexample: on raw generated text that begins with a blank
line, the code (which strips before scanning) returns a nonempty result,
while the process described by the claim (sentinel scan on the raw text,
single final strip) returns the empty string. -/
theorem mlx_trim_claim_order_counterexample :
    mlxTrim (String.toList "\n\nfoo") = String.toList "foo" ∧
      claimOrderTrim (String.toList "\n\nfoo") = [] :=
  ⟨by decide, by decide⟩

/-- C1 (amended): for every invocation whose generation call returns the
raw text `resp`, a successful result equals `resp` stripped of
leading/trailing whitespace first, then processed by the five sentinels
in the fixed order, each step truncating the current text just before
the first occurrence of that sentinel, then stripped again. -/
theorem mlx_success_result_eq_trim (lib : MlxLib)
    (stdin : Except (List Char) JValue) (resp t : List Char)
    (hgen : ∀ p m v, lib.generate p m v = Except.ok resp)
    (hok : (mlxBody lib stdin).1 = Except.ok t) :
    t = pyStrip (List.foldl trimOne (pyStrip resp)
      [String.toList "<|user|>", String.toList "<|end|>",
       String.toList "<|endoftext|>", String.toList "<|im_end|>",
       String.toList "\n\n"]) := by
  cases stdin with
  | error e => simp [mlxBody] at hok
  | ok input =>
    cases hm : jGet input modelPathKey with
    | error e => simp [mlxBody, hm] at hok
    | ok adapterPath =>
      cases hp : jGet input promptKey with
      | error e => simp [mlxBody, hm, hp] at hok
      | ok prompt =>
        cases hd : jGetD input maxTokensKey (JValue.num 100) with
        | error e => simp [mlxBody, hm, hp, hd] at hok
        | ok maxTokens =>
          cases hl : lib.load baseModel adapterPath with
          | error e => simp [mlxBody, hm, hp, hd, hl] at hok
          | ok u =>
            have hg := hgen prompt maxTokens false
            simp [mlxBody, hm, hp, hd, hl, hg] at hok
            rw [← hok]
            rfl

/-- Witness for the amended C1 at a concrete library and request. -/
theorem mlx_success_result_eq_trim_witness :
    (∀ p m v, cMlxLib.generate p m v =
        Except.ok (String.toList " out<|end|>x ")) ∧
      (mlxBody cMlxLib (Except.ok cInput)).1 =
        Except.ok (String.toList "out") ∧
      String.toList "out" = pyStrip (List.foldl trimOne
        (pyStrip (String.toList " out<|end|>x "))
        [String.toList "<|user|>", String.toList "<|end|>",
         String.toList "<|endoftext|>", String.toList "<|im_end|>",
         String.toList "\n\n"]) :=
  ⟨fun _ _ _ => rfl, rfl,
   mlx_success_result_eq_trim cMlxLib (Except.ok cInput)
     (String.toList " out<|end|>x ") (String.toList "out")
     (fun _ _ _ => rfl) rfl⟩

/-! ## Claim C2 -/

/-- C2: each invocation of either adapter yields exactly one response
object and one exit code: the success variant with exit code 0 exactly
when the body succeeds, and the failure variant carrying the exception
message with exit code 1 when the body raises. -/
theorem run_output_classification (mlib : MlxLib) (llib : LlamaLib)
    (mstdin lstdin : Except (List Char) JValue) :
    ((∃ t, (mlxBody mlib mstdin).1 = Except.ok t ∧
        mlxRun mlib mstdin = (Response.success t, 0)) ∨
      (∃ e, (mlxBody mlib mstdin).1 = Except.error e ∧
        mlxRun mlib mstdin = (Response.failure e, 1))) ∧
    ((∃ t, (llamaBody llib lstdin).1 = Except.ok t ∧
        llamaRun llib lstdin = (Response.success t, 0)) ∨
      (∃ e, (llamaBody llib lstdin).1 = Except.error e ∧
        llamaRun llib lstdin = (Response.failure e, 1))) := by
  constructor
  · cases h : (mlxBody mlib mstdin).1 with
    | ok t => exact Or.inl ⟨t, rfl, by simp [mlxRun, h]⟩
    | error e => exact Or.inr ⟨e, rfl, by simp [mlxRun, h]⟩
  · cases h : (llamaBody llib lstdin).1 with
    | ok t => exact Or.inl ⟨t, rfl, by simp [llamaRun, h]⟩
    | error e => exact Or.inr ⟨e, rfl, by simp [llamaRun, h]⟩

/-! ## Claim C3 -/

/-- C3: the two concrete Apple-Silicon trimming examples: a sentinel in
the middle truncates, and of two blank-line separated paragraphs only
the first survives. -/
theorem mlx_trim_spec_examples :
    mlxTrim (String.toList "hello world<|im_end|> extra") =
        String.toList "hello world" ∧
      mlxTrim (String.toList "para one\n\npara two") =
        String.toList "para one" :=
  ⟨by decide, by decide⟩

/-! ## Claim C9 -/

/-- C9: leading/trailing whitespace is stripped before the sentinel scan
runs, so raw text whose leading whitespace contains a blank line is not
truncated to the empty string. -/
theorem mlx_strip_before_scan :
    mlxTrim (String.toList "\n\nfoo") = String.toList "foo" ∧
      mlxTrim (String.toList "\n\nfoo") ≠ [] :=
  ⟨by decide, by decide⟩

/-! ## Claim C4 -/

/-- C4: when the key `maxTokens` is absent from the input object, every
generation call made by either adapter uses the default cap 100. -/
theorem default_max_tokens_is_100 (mlib : MlxLib) (llib : LlamaLib)
    (kvs : List (List Char × JValue))
    (habs : lookupKV kvs maxTokensKey = none) :
    (∀ p m v, MlxCall.generate p m v ∈
        (mlxBody mlib (Except.ok (JValue.obj kvs))).2 →
          m = JValue.num 100) ∧
      (∀ p m s e, LlamaCall.generate p m s e ∈
        (llamaBody llib (Except.ok (JValue.obj kvs))).2 →
          m = JValue.num 100) := by
  have hd : jGetD (JValue.obj kvs) maxTokensKey (JValue.num 100) =
      Except.ok (JValue.num 100) := by
    simp [jGetD, habs]
  constructor
  · intro p m v hmem
    rcases mlxBody_trace_cases mlib (JValue.obj kvs) with
      h | ⟨ap, hm2, h⟩ | ⟨ap, p', m', hm2, hp2, hd2, h⟩
    · rw [h] at hmem
      exact absurd hmem (List.not_mem_nil _)
    · rw [h] at hmem
      simp at hmem
    · rw [h] at hmem
      simp at hmem
      rw [hd] at hd2
      rw [hmem.2.1, Except.ok.inj hd2]
  · intro p m s e hmem
    rcases llamaBody_trace_cases llib (JValue.obj kvs) with
      h | ⟨mp, hm2, h⟩ | ⟨mp, p', m', hm2, hp2, hd2, h⟩
    · rw [h] at hmem
      exact absurd hmem (List.not_mem_nil _)
    · rw [h] at hmem
      simp at hmem
    · rw [h] at hmem
      simp at hmem
      rw [hd] at hd2
      rw [hmem.2.1, Except.ok.inj hd2]

/-- Witness for C4: a concrete request without `maxTokens`, whose
generation call is in the recorded trace. -/
theorem default_max_tokens_is_100_witness :
    lookupKV cKvs maxTokensKey = none ∧ JValue.num 100 = JValue.num 100 :=
  ⟨rfl, (default_max_tokens_is_100 cMlxLib cLlamaLib cKvs rfl).1
    (JValue.str (String.toList "hi")) (JValue.num 100) false
    (List.mem_cons_of_mem _ (List.mem_cons_self _ _))⟩

/-! ## Claim C10 -/

/-- C10: the default 100 applies only when `maxTokens` is absent: a
present value, `null` included, is forwarded to every generation call
unchanged and unvalidated. -/
theorem present_max_tokens_forwarded (mlib : MlxLib) (llib : LlamaLib)
    (kvs : List (List Char × JValue)) (v : JValue)
    (hpres : lookupKV kvs maxTokensKey = some v) :
    (∀ p m w, MlxCall.generate p m w ∈
        (mlxBody mlib (Except.ok (JValue.obj kvs))).2 → m = v) ∧
      (∀ p m s e, LlamaCall.generate p m s e ∈
        (llamaBody llib (Except.ok (JValue.obj kvs))).2 → m = v) := by
  have hd : jGetD (JValue.obj kvs) maxTokensKey (JValue.num 100) =
      Except.ok v := by
    simp [jGetD, hpres]
  constructor
  · intro p m w hmem
    rcases mlxBody_trace_cases mlib (JValue.obj kvs) with
      h | ⟨ap, hm2, h⟩ | ⟨ap, p', m', hm2, hp2, hd2, h⟩
    · rw [h] at hmem
      exact absurd hmem (List.not_mem_nil _)
    · rw [h] at hmem
      simp at hmem
    · rw [h] at hmem
      simp at hmem
      rw [hd] at hd2
      rw [hmem.2.1, Except.ok.inj hd2]
  · intro p m s e hmem
    rcases llamaBody_trace_cases llib (JValue.obj kvs) with
      h | ⟨mp, hm2, h⟩ | ⟨mp, p', m', hm2, hp2, hd2, h⟩
    · rw [h] at hmem
      exact absurd hmem (List.not_mem_nil _)
    · rw [h] at hmem
      simp at hmem
    · rw [h] at hmem
      simp at hmem
      rw [hd] at hd2
      rw [hmem.2.1, Except.ok.inj hd2]

/-- Witness for C10: a concrete request carrying `maxTokens: null`,
whose generation call forwards `null`. -/
theorem present_max_tokens_forwarded_witness :
    lookupKV cKvsNull maxTokensKey = some JValue.null ∧
      JValue.null = JValue.null :=
  ⟨rfl, (present_max_tokens_forwarded cMlxLib cLlamaLib cKvsNull
      JValue.null rfl).1
    (JValue.str (String.toList "hi")) JValue.null false
    (List.mem_cons_of_mem _ (List.mem_cons_self _ _))⟩

/-! ## Claim C5 -/

/-- C5: every CPU/CUDA model load uses a context window of 2048 tokens
and full accelerator offload, and every generation call passes the
request prompt, the effective max-token cap, and exactly the four stop
tokens, with echo disabled. -/
theorem llama_call_arguments (lib : LlamaLib) (input : JValue) :
    (∀ mp n g vb, LlamaCall.load mp n g vb ∈
        (llamaBody lib (Except.ok input)).2 →
          n = 2048 ∧ g = -1 ∧
            jGet input modelPathKey = Except.ok mp) ∧
      (∀ p m s e, LlamaCall.generate p m s e ∈
        (llamaBody lib (Except.ok input)).2 →
          s = [String.toList "<|user|>", String.toList "<|end|>",
               String.toList "<|endoftext|>", String.toList "\n\n"] ∧
            e = false ∧ jGet input promptKey = Except.ok p ∧
            jGetD input maxTokensKey (JValue.num 100) = Except.ok m) := by
  constructor
  · intro mp n g vb hmem
    rcases llamaBody_trace_cases lib input with
      h | ⟨mp', hm2, h⟩ | ⟨mp', p', m', hm2, hp2, hd2, h⟩
    · rw [h] at hmem
      exact absurd hmem (List.not_mem_nil _)
    · rw [h] at hmem
      simp at hmem
      rw [hmem.1]
      exact ⟨hmem.2.1, hmem.2.2.1, hm2⟩
    · rw [h] at hmem
      simp at hmem
      rw [hmem.1]
      exact ⟨hmem.2.1, hmem.2.2.1, hm2⟩
  · intro p m s e hmem
    rcases llamaBody_trace_cases lib input with
      h | ⟨mp', hm2, h⟩ | ⟨mp', p', m', hm2, hp2, hd2, h⟩
    · rw [h] at hmem
      exact absurd hmem (List.not_mem_nil _)
    · rw [h] at hmem
      simp at hmem
    · rw [h] at hmem
      simp at hmem
      rw [hmem.1, hmem.2.1]
      exact ⟨hmem.2.2.1, hmem.2.2.2, hp2, hd2⟩

/-- Witness for C5 at the concrete library and request, instantiated at
the generation call the body records. -/
theorem llama_call_arguments_witness :
    llamaStops =
      [String.toList "<|user|>", String.toList "<|end|>",
       String.toList "<|endoftext|>", String.toList "\n\n"] ∧
      false = false ∧
      jGet cInput promptKey =
        Except.ok (JValue.str (String.toList "hi")) ∧
      jGetD cInput maxTokensKey (JValue.num 100) =
        Except.ok (JValue.num 100) :=
  (llama_call_arguments cLlamaLib cInput).2
    (JValue.str (String.toList "hi")) (JValue.num 100) llamaStops false
    (List.mem_cons_of_mem _ (List.mem_cons_self _ _))

/-! ## Claim C7 -/

/-- C7: every Apple-Silicon load call uses the one fixed base model
identifier, and the request modelPath value is what is passed as the
adapter path. -/
theorem mlx_load_arguments (lib : MlxLib) (input : JValue) :
    ∀ mdl ap, MlxCall.load mdl ap ∈ (mlxBody lib (Except.ok input)).2 →
      mdl = String.toList "mlx-community/Qwen2.5-7B-Instruct-4bit" ∧
        jGet input modelPathKey = Except.ok ap := by
  intro mdl ap hmem
  rcases mlxBody_trace_cases lib input with
    h | ⟨ap', hm2, h⟩ | ⟨ap', p', m', hm2, hp2, hd2, h⟩
  · rw [h] at hmem
    exact absurd hmem (List.not_mem_nil _)
  · rw [h] at hmem
    simp at hmem
    rw [hmem.2]
    exact ⟨hmem.1, hm2⟩
  · rw [h] at hmem
    simp at hmem
    rw [hmem.2]
    exact ⟨hmem.1, hm2⟩

/-- Witness for C7 at the concrete library and request, instantiated at
the load call the body records. -/
theorem mlx_load_arguments_witness :
    baseModel = String.toList "mlx-community/Qwen2.5-7B-Instruct-4bit" ∧
      jGet cInput modelPathKey =
        Except.ok (JValue.str (String.toList "model.gguf")) :=
  mlx_load_arguments cMlxLib cInput baseModel
    (JValue.str (String.toList "model.gguf"))
    (List.mem_cons_self _ _)

/-! ## Claim C6 -/

/-- C6: a successful CPU/CUDA result equals the text the library
returned stripped of leading/trailing whitespace, and when the library
text contains no stop token (the library honoured the stop list), the
result carries none of the four stop tokens as a suffix. -/
theorem llama_result_is_stripped (lib : LlamaLib)
    (stdin : Except (List Char) JValue) (out : JValue) (raw t : List Char)
    (hgen : ∀ p m s e, lib.generate p m s e = Except.ok out)
    (hext : llamaExtract out = Except.ok (JValue.str raw))
    (hok : (llamaBody lib stdin).1 = Except.ok t) :
    t = pyStrip raw ∧
      ((∀ stop ∈ llamaStops, ¬ stop <:+: raw) →
        ∀ stop ∈ llamaStops, ¬ stop <:+ t) := by
  have hteq : t = pyStrip raw := by
    cases stdin with
    | error e => simp [llamaBody] at hok
    | ok input =>
      cases hm : jGet input modelPathKey with
      | error e => simp [llamaBody, hm] at hok
      | ok mp =>
        cases hp : jGet input promptKey with
        | error e => simp [llamaBody, hm, hp] at hok
        | ok p =>
          cases hd : jGetD input maxTokensKey (JValue.num 100) with
          | error e => simp [llamaBody, hm, hp, hd] at hok
          | ok m =>
            cases hl : lib.load mp 2048 (-1) false with
            | error e => simp [llamaBody, hm, hp, hd, hl] at hok
            | ok u =>
              have hg := hgen p m llamaStops false
              simp [llamaBody, hm, hp, hd, hl, hg, hext, jStrip] at hok
              exact hok.symm
  refine ⟨hteq, ?_⟩
  intro hno stop hmem hsuf
  have h2 : t <:+: raw := by
    rw [hteq]
    exact pyStrip_isInf raw
  exact hno stop hmem ((isSuf_isInf hsuf).trans h2)

/-- Witness for C6 at a concrete library whose generation result holds
the text with surrounding whitespace. -/
theorem llama_result_is_stripped_witness :
    (∀ p m s e, cLlamaLib.generate p m s e = Except.ok cOut) ∧
      llamaExtract cOut = Except.ok (JValue.str (String.toList "  hi  ")) ∧
      (llamaBody cLlamaLib (Except.ok cInput)).1 =
        Except.ok (String.toList "hi") ∧
      String.toList "hi" = pyStrip (String.toList "  hi  ") :=
  ⟨fun _ _ _ _ => rfl, rfl, rfl,
   (llama_result_is_stripped cLlamaLib (Except.ok cInput) cOut
     (String.toList "  hi  ") (String.toList "hi")
     (fun _ _ _ _ => rfl) rfl rfl).1⟩

end Levin
